import Mathlib

/-!
Verification of the `local-agents-server` repository against its
natural-language specification.

The Python sources are shallowly embedded: each definition below is a
direct translation of the function named in its doc comment
(`src/agents/api_caller.py`, `src/agents/file_reader.py`,
`src/credential_manager.py`).  External effects (HTTP requests, the LLM
call, the real filesystem) are passed in as explicit function or state
parameters; machine-level details that the claims do not touch (logging,
timeouts) are elided.
-/

namespace LocalAgents

/-! ### Call Executor (`APICallerAgent._execute_api_call`) -/

/-- An HTTP response as seen by `requests`: status code, body text and
response headers.  The body is kept as raw text (the JSON-or-text parse in
the source only re-packages this value). -/
structure HttpResp where
  status : Nat
  body : String
  respHeaders : List (String × String)
deriving DecidableEq, Repr

/-- The dict returned by `_execute_api_call`: `status_code`, `success`,
`data`, `headers` and — on the exception path — `error`. -/
structure ExecResult where
  status_code : Nat
  success : Bool
  data : Option String
  headers : List (String × String)
  error : Option String
deriving DecidableEq, Repr

/-- `requests.Response.ok`: true unless `raise_for_status` would raise,
i.e. unless the status code is in 400..599. -/
def responseOk (s : Nat) : Bool :=
  if 400 ≤ s ∧ s < 600 then false else true

/-- `APICallerAgent._execute_api_call` (src/agents/api_caller.py:769-817).
The `requests.request` call is passed in as an `Except`: `.ok r` is a
completed HTTP exchange, `.error e` is a raised network/timeout exception
(caught by the `except Exception` branch, which returns
`{"status_code": 0, "success": False, "error": str(e)}`). -/
def executeApiCall (resp : Except String HttpResp) : ExecResult :=
  match resp with
  | .ok r =>
      { status_code := r.status
        success := responseOk r.status
        data := some r.body
        headers := r.respHeaders
        error := none }
  | .error e =>
      { status_code := 0
        success := false
        data := none
        headers := []
        error := some e }

/-! ### Retry loop (`APICallerAgent.process`, src/agents/api_caller.py:96-154) -/

/-- What the environment supplies at attempt `n` of the loop:
whether `_form_api_call_with_llm` produced a plan without an `error` key,
and the `ExecResult` of executing that plan. -/
structure AttemptOutcome where
  synthOk : Bool
  exec : ExecResult
deriving Repr

/-- How a run of `process`'s attempt loop ends: an early return
`"Error forming API call: ..."` at some attempt, or the
`_format_response(api_call_info, result, retry_count=attempt)` call with
the final result and the final value of the loop variable `attempt`. -/
inductive ProcessOutcome where
  | synthError (attempt : Nat)
  | finished (result : ExecResult) (retryCount : Nat)
deriving DecidableEq, Repr

/-- Result of running the loop, together with the indices of the loop
iterations that were actually entered (the attempts performed). -/
structure RunResult where
  outcome : ProcessOutcome
  attempts : List Nat
deriving DecidableEq, Repr

/-- The body of `for attempt in range(max_retries)` in
`APICallerAgent.process`:
synthesize (early return on synthesis error), execute, break on success,
continue only when `400 <= status_code < 500 and attempt < max_retries - 1`,
otherwise break.  `fuel` is the number of remaining iterations
(`max_retries - attempt` at every call from `apiCallerRetry`, so the
`fuel = 0` base case is never reached from the entry point). -/
def attemptLoop (env : Nat → AttemptOutcome) (maxRetries : Nat) :
    Nat → Nat → List Nat → RunResult
  | 0, attempt, log => ⟨.finished (env attempt).exec attempt, log⟩
  | fuel + 1, attempt, log =>
      let a := env attempt
      let log' := log ++ [attempt]
      if a.synthOk = false then ⟨.synthError attempt, log'⟩
      else if a.exec.success then ⟨.finished a.exec attempt, log'⟩
      else if 400 ≤ a.exec.status_code ∧ a.exec.status_code < 500 ∧
              attempt < maxRetries - 1 then
        attemptLoop env maxRetries fuel (attempt + 1) log'
      else ⟨.finished a.exec attempt, log'⟩

/-- The attempt loop of `APICallerAgent.process` with its hard-coded
`max_retries = 2`. -/
def apiCallerRetry (env : Nat → AttemptOutcome) : RunResult :=
  attemptLoop env 2 2 0 []

/-- A concrete attempt environment (used as a witness input): the first
attempt fails with a 422 client error, the retried attempt succeeds. -/
def retryEnvW : Nat → AttemptOutcome := fun n =>
  if n = 0 then ⟨true, ⟨422, false, some "missing field", [], none⟩⟩
  else ⟨true, ⟨200, true, some "ok", [], none⟩⟩

/-! ### Character and string helpers shared by the embeddings -/

/-- Python `\s` / `str.strip()` whitespace, restricted to ASCII:
space, tab, newline, carriage return, vertical tab, form feed. -/
def isPySpace (c : Char) : Bool :=
  c = ' ' || c = '\t' || c = '\n' || c = '\r' ||
  c = Char.ofNat 11 || c = Char.ofNat 12

/-- Does `cs` begin with `p`? -/
def isPrefList : List Char → List Char → Bool
  | [], _ => true
  | _ :: _, [] => false
  | a :: as, b :: bs => a = b && isPrefList as bs

/-- Python's `needle in hay` substring test. -/
def hasSubstr (needle : List Char) : List Char → Bool
  | [] => needle.isEmpty
  | c :: rest => isPrefList needle (c :: rest) || hasSubstr needle rest

/-- Drop leading Python whitespace (left part of `str.strip()` /
`str.lstrip()`). -/
def pyStripL (l : List Char) : List Char := l.dropWhile isPySpace

/-- Drop trailing Python whitespace (right part of `str.strip()`). -/
def pyStripR (l : List Char) : List Char :=
  (l.reverse.dropWhile isPySpace).reverse

/-- Python `str.strip()` with no arguments (ASCII fragment). -/
def pyStrip (l : List Char) : List Char := pyStripR (pyStripL l)

/-- Python `str.lower()` (ASCII fragment), char by char.  (Defined over
the character list so that it reduces inside the kernel.) -/
def pyLower (s : String) : String := (s.toList.map Char.toLower).asString

/-- Split at every occurrence of `sep`, keeping empty pieces — Python
`str.split(sep)` for a one-character separator, and the componentwise
view `os.path` functions take of a path. -/
def splitOnCharAux (sep : Char) : List Char → List Char → List String
  | [], acc => [acc.reverse.asString]
  | c :: rest, acc =>
      if c = sep then acc.reverse.asString :: splitOnCharAux sep rest []
      else splitOnCharAux sep rest (c :: acc)

/-- Split a string at a separator character. -/
def splitOnChar (sep : Char) (s : String) : List String :=
  splitOnCharAux sep s.toList []

/-- Remove the literal `p` from the front of `l`; `none` when `l` does not
begin with `p`. -/
def removePre : List Char → List Char → Option (List Char)
  | [], l => some l
  | _ :: _, [] => none
  | a :: as, b :: bs => if a = b then removePre as bs else none

/-- Python dict membership on an insertion-ordered association list. -/
def dictHasKey (k : String) (hs : List (String × String)) : Bool :=
  hs.any (fun p => p.1 = k)

/-- Python dict lookup on an insertion-ordered association list. -/
def dictGet (hs : List (String × String)) (k : String) : Option String :=
  (hs.find? (fun p => p.1 = k)).map (fun p => p.2)

/-- Python `d[k] = v` on an insertion-ordered association list: update the
existing entry in place, else append at the end. -/
def dictSet (k v : String) : List (String × String) → List (String × String)
  | [] => [(k, v)]
  | (k', v') :: rest =>
      if k' = k then (k, v) :: rest else (k', v') :: dictSet k v rest

/-! ### Documentation Harvester crawl stage
(`APICallerAgent._fetch_documentation`, src/agents/api_caller.py:237-309) -/

/-- One successfully fetched documentation page: its `<title>`, its cleaned
visible text, and the same-origin relevant links
(`_extract_relevant_links`, already sorted by relevance score). -/
structure DocPage where
  title : String
  text : String
  links : List String
deriving Repr

/-- State of the crawl loop: the FIFO `links_to_visit` queue, the
`visited_urls` set, the `docs_content` accumulator, and the log of URLs on
which `requests.get` was actually invoked. -/
structure CrawlState where
  queue : List String
  visited : List String
  content : List String
  fetched : List String
deriving Repr

/-- `f"\n{'='*60}\n"`, the page-boundary marker line. -/
def sepLine : String := "\n" ++ (List.replicate 60 '=').asString ++ "\n"

/-- The five strings appended to `docs_content` for one fetched page. -/
def pageChunk (url : String) (p : DocPage) : List String :=
  [sepLine, "Page: " ++ p.title ++ "\n", "URL: " ++ url ++ "\n", sepLine,
   p.text]

/-- The `for page_num in range(max_pages)` crawl loop of
`_fetch_documentation`.  `fetch u = none` models `requests.get` raising
(the `except` branch: log and `continue`); `fetch u = some page` is a
successful fetch.  Links are enqueued (top 10) only from the first page
(`page_num == 0`).  A URL already in `visited` is skipped but still
consumes a loop iteration, exactly as `continue` does in the source. -/
def crawlLoop (fetch : String → Option DocPage) :
    Nat → Nat → CrawlState → CrawlState
  | 0, _, st => st
  | fuel + 1, pageNum, st =>
      match st.queue with
      | [] => st
      | u :: rest =>
          if u ∈ st.visited then
            crawlLoop fetch fuel (pageNum + 1) { st with queue := rest }
          else
            let st' : CrawlState :=
              match fetch u with
              | none =>
                  { queue := rest
                    visited := u :: st.visited
                    content := st.content
                    fetched := st.fetched ++ [u] }
              | some page =>
                  { queue := rest ++
                      (if pageNum = 0 then page.links.take 10 else [])
                    visited := u :: st.visited
                    content := st.content ++ pageChunk u page
                    fetched := st.fetched ++ [u] }
            crawlLoop fetch fuel (pageNum + 1) st'

/-- The crawl stage of `_fetch_documentation` starting from `url` with
`max_pages = 11`. -/
def fetchDocsCrawl (fetch : String → Option DocPage) (url : String) :
    CrawlState :=
  crawlLoop fetch 11 0 ⟨[url], [], [], []⟩

/-- The text `_fetch_documentation` returns from the crawl stage:
`'\n\n'.join(docs_content)`, truncated to `MAX_CONTENT_LENGTH * 2`
characters with a truncation notice when exceeded
(`MAX_CONTENT_LENGTH` defaults to 4000 in src/config.py). -/
def crawlDocsText (maxContentLength : Nat) (fetch : String → Option DocPage)
    (url : String) : String :=
  let combined := String.intercalate "\n\n" (fetchDocsCrawl fetch url).content
  if maxContentLength * 2 < combined.length then
    (combined.toList.take (maxContentLength * 2)).asString ++
      "\n\n[Documentation truncated - showing first portion]"
  else combined

/-- The guard in `APICallerAgent.process` (src/agents/api_caller.py:93):
`docs_content.startswith("Error")` decides whether the harvest result is
surfaced to the user instead of proceeding to synthesis. -/
def processSurfacesError (docsContent : String) : Bool :=
  isPrefList "Error".toList docsContent.toList

/-! ### Request Synthesizer (`APICallerAgent._form_api_call_with_llm`,
src/agents/api_caller.py:620-767) -/

/-- `re.sub(r'^```(?:json)?\s*', '', s)` for an `s` that starts with
three backticks: drop the backticks, optionally a literal `json` tag, and
the following whitespace run.  (Without `re.MULTILINE`, `^` anchors only
at the start of the string, so the substitution applies at most once.) -/
def stripLeadFence (l : List Char) : List Char :=
  match removePre "```".toList l with
  | none => l
  | some r =>
      let r2 := match removePre "json".toList r with
                | some r' => r'
                | none => r
      r2.dropWhile isPySpace

/-- `re.sub(r'\s*```$', '', s)`.  Without `re.MULTILINE`, `$` matches at
the end of the string or just before a final newline, so the leftmost
match removes the final ``` ``` `` fence together with the whitespace run
preceding it (keeping a final newline when the fence sits before one). -/
def stripTrailFence (l : List Char) : List Char :=
  if isPrefList "```".toList.reverse l.reverse then
    pyStripR (l.take (l.length - 3))
  else if isPrefList "```\n".toList.reverse l.reverse then
    pyStripR (l.take (l.length - 4)) ++ ['\n']
  else l

/-- The fence-stripping step of `_form_api_call_with_llm`
(src/agents/api_caller.py:719-731): `llm_response.strip()`, then — only
when the result starts with ``` ``` `` — the two `re.sub` calls followed
by another `strip()`.  The result is what `json.loads` receives. -/
def stripFences (s : String) : String :=
  let l := pyStrip s.toList
  (if isPrefList "```".toList l then
    pyStrip (stripTrailFence (stripLeadFence l))
  else l).asString

/-- Case-insensitive `needle in docs_content.lower()` scan used to choose
the auth header shape. -/
def docsMention (docs needle : String) : Bool :=
  hasSubstr needle.toList (pyLower docs).toList

/-- The API-key injection step of `_form_api_call_with_llm`
(src/agents/api_caller.py:733-753): when an out-of-band key is present and
the parsed plan's headers have no `'Authorization'` key, add a header
whose shape is chosen by scanning the documentation corpus, defaulting to
`ApiKey`. -/
def injectApiKey (docs : String) (apiKey : Option String)
    (headers : List (String × String)) : List (String × String) :=
  match apiKey with
  | none => headers
  | some key =>
      if dictHasKey "Authorization" headers then headers
      else if docsMention docs "bearer" then
        dictSet "Authorization" ("Bearer " ++ key) headers
      else if docsMention docs "x-api-key" then
        dictSet "X-API-Key" key headers
      else if docsMention docs "apikey" then
        dictSet "ApiKey" key headers
      else
        dictSet "ApiKey" key headers

/-- The spec's own notion of "an Authorization-style header is already
present", written from the spec's words (the header shapes the
Synthesizer itself produces).  This is NOT translated from the source —
it exists to compare the claim's wording with the code's actual guard,
which tests only the literal key `'Authorization'`. -/
def specAuthStylePresent (headers : List (String × String)) : Bool :=
  dictHasKey "Authorization" headers || dictHasKey "X-API-Key" headers ||
  dictHasKey "ApiKey" headers

/-! ### Credential manager (`src/credential_manager.py`) -/

/-- Python `\w` (ASCII): letters, digits, underscore. -/
def isWordChar (c : Char) : Bool := c.isAlphanum || c = '_'

/-- Replace every maximal whitespace run by a single `'_'`
(`re.sub(r'\s+', '_', s)`).  `prevWs` records whether the previous
character belonged to a run already replaced. -/
def collapseWsAux : Bool → List Char → List Char
  | _, [] => []
  | prevWs, c :: rest =>
      if isPySpace c then
        if prevWs then collapseWsAux true rest
        else '_' :: collapseWsAux true rest
      else c :: collapseWsAux false rest

/-- `_normalize_search_term` (src/credential_manager.py:104-115), also the
key normalization applied by `_parse_env_file` to natural-language keys:
lowercase, strip characters that are neither word characters nor
whitespace (`re.sub(r'[^\w\s]', '', ·)`), then collapse whitespace runs to
single underscores (`re.sub(r'\s+', '_', ·)`). -/
def pyNormalize (t : String) : String :=
  (collapseWsAux false
    ((pyLower t).toList.filter (fun c => isWordChar c || isPySpace c))).asString

/-- The credential store `_parse_env_file` builds: an insertion-ordered
mapping from normalized keys to (non-empty) values.  Python dicts iterate
in insertion order, which the association-list order models. -/
abbrev CredStore := List (String × String)

/-- `_fuzzy_match` (src/credential_manager.py:118-161): exact match, then
first key containing the normalized term as a substring, then (for
multi-word terms) first key containing every `'_'`-separated word, then
first key that is itself a substring of the term. -/
def fuzzyMatch (searchTerm : String) (creds : CredStore) : Option String :=
  let ns := pyNormalize searchTerm
  match dictGet creds ns with
  | some v => some v
  | none =>
      match creds.find? (fun p => hasSubstr ns.toList p.1.toList) with
      | some p => some p.2
      | none =>
          let ws := splitOnChar '_' ns
          match (if 1 < ws.length then
                   creds.find? (fun p =>
                     ws.all (fun w => hasSubstr w.toList p.1.toList))
                 else none) with
          | some p => some p.2
          | none =>
              match creds.find? (fun p =>
                      hasSubstr p.1.toList ns.toList) with
              | some p => some p.2
              | none => none

/-- `get_credential` (src/credential_manager.py:164-205): empty names give
the default, a found value is returned only when truthy (Python
`if value:`), otherwise the default. -/
def getCredential (name : String) (deflt : Option String)
    (creds : CredStore) : Option String :=
  if name = "" then deflt
  else
    match fuzzyMatch name creds with
    | some v => if v = "" then deflt else some v
    | none => deflt

/-! ### File agent (`src/agents/file_reader.py`) -/

/-- The filesystem as the file agent observes it: an association list from
(absolute) path strings to file contents.  `os.path.exists` is a key
lookup; writing updates or adds an entry. -/
abbrev FileSys := List (String × String)

/-- `os.path.exists`. -/
def fsExists (fs : FileSys) (p : String) : Bool :=
  fs.any (fun e => e.1 = p)

/-- Read a file's content. -/
def fsGet (fs : FileSys) (p : String) : Option String :=
  (fs.find? (fun e => e.1 = p)).map (fun e => e.2)

/-- `open(p, 'w')` followed by a write: replace or create the entry. -/
def fsWrite (fs : FileSys) (p content : String) : FileSys :=
  dictSet p content fs

/-- Path components, as `os.path.commonpath` compares them. -/
def splitPath (p : String) : List String := splitOnChar '/' p

/-- The longest common component run of two split paths —
`os.path.commonpath([a, b])` componentwise. -/
def commonRoot : List String → List String → List String
  | x :: xs, y :: ys => if x = y then x :: commonRoot xs ys else []
  | _, _ => []

/-- The security-error text of `_validate_file_path`
(src/agents/file_reader.py:251-254; the closing fixed tip line of the
message is elided). -/
def secErrorText (absP realBase : String) : String :=
  "Security Error: Cannot access files outside the project directory.\n" ++
  "Requested: " ++ absP ++ "\n" ++ "Allowed directory: " ++ realBase

/-- `FileReaderAgent._validate_file_path` (src/agents/file_reader.py:228-261).
`canon` models `os.path.realpath(os.path.expanduser(·))` — symlink and
`..` resolution performed by the OS.  The path is valid iff
`os.path.commonpath([canon p, canon baseDir])` equals the canonical base
directory, i.e. iff the base's components are a precise common root. -/
def validateFilePath (canon : String → String) (baseDir p : String) :
    Option String :=
  let absP := canon p
  let realBase := canon baseDir
  if commonRoot (splitPath absP) (splitPath realBase) = splitPath realBase
  then none
  else some (secErrorText absP realBase)

/-- `os.path.dirname` of a slash-separated path. -/
def dirNameOf (p : String) : String :=
  String.intercalate "/" (splitPath p).dropLast

/-- `os.path.basename` of a slash-separated path. -/
def baseNameOf (p : String) : String :=
  ((splitPath p).getLast? ).getD ""

/-- `os.path.splitext` on a basename: split at the rightmost dot, unless
every character before that dot is itself a dot (so `.bashrc` has no
extension). -/
def splitExtChars (cs : List Char) : List Char × List Char :=
  let afterDot := cs.reverse.takeWhile (fun c => c ≠ '.')
  if afterDot.length = cs.length then (cs, [])
  else
    let nameLen := cs.length - afterDot.length - 1
    if (cs.take nameLen).all (fun c => c = '.') then (cs, [])
    else (cs.take nameLen, '.' :: afterDot.reverse)

/-- The extension `os.path.splitext(file_path)[1]` (the dot search never
crosses the last path separator, hence the basename restriction). -/
def extOf (p : String) : String :=
  (splitExtChars (baseNameOf p).toList).2.asString

/-- `WRITABLE_EXTENSIONS` (src/agents/file_reader.py:30). -/
def writableExts : List String := [".json", ".csv", ".txt", ".md", ".log"]

/-- `FileReaderAgent._should_overwrite` (src/agents/file_reader.py:374-385):
any overwrite keyword occurs in the lowercased message. -/
def shouldOverwrite (msg : String) : Bool :=
  ["overwrite", "replace", "write over", "rewrite", "update the file",
   "update file"].any
    (fun k => hasSubstr k.toList (pyLower msg).toList)

/-- `os.path.join(directory, f"{name}_{counter}{ext}")` — the candidate
filename tried for counter `c`. -/
def candidateName (dir name ext : String) (c : Nat) : String :=
  dir ++ "/" ++ name ++ "_" ++ Nat.repr c ++ ext

/-- The `while True` counter search of `_get_unique_filename`
(src/agents/file_reader.py:399-405), given enough fuel: return the first
counter `c` (starting at 1) whose candidate file does not exist.  The
source loop has no fuel; it terminates because the filesystem is finite,
which is exactly what `fuel = fs.length + 1` provides (proved total
below). -/
def findFreeCounter (fs : FileSys) (dir name ext : String) :
    Nat → Nat → Option Nat
  | 0, _ => none
  | fuel + 1, c =>
      if fsExists fs (candidateName dir name ext c) then
        findFreeCounter fs dir name ext fuel (c + 1)
      else some c

/-- `FileReaderAgent._get_unique_filename` (src/agents/file_reader.py:387-405). -/
def getUniqueFilename (fs : FileSys) (p : String) : String :=
  if fsExists fs p = false then p
  else
    let dir := dirNameOf p
    let pr := splitExtChars (baseNameOf p).toList
    match findFreeCounter fs dir pr.1.asString pr.2.asString (fs.length + 1) 1 with
    | some c => candidateName dir pr.1.asString pr.2.asString c
    | none => p

/-- Outcome of `_handle_write`: the filesystem afterwards and the reply
text returned to the user. -/
structure WriteOutcome where
  fs : FileSys
  reply : String
deriving Repr

/-- `FileReaderAgent._handle_write` (src/agents/file_reader.py:143-196)
from the point where the absolute destination path `p` has been
determined (extraction and artefacts-relative absolutization happen
upstream): validate the path, check the extension, divert to a fresh
uniquely-suffixed name when the file exists and no overwrite was
requested, then write.  `content` is the serialized text `_write_file`
puts on disk. -/
def handleWrite (canon : String → String) (baseDir msg content p : String)
    (fs : FileSys) : WriteOutcome :=
  match validateFilePath canon baseDir p with
  | some err => ⟨fs, err⟩
  | none =>
      let ext := pyLower (extOf p)
      if (writableExts.contains ext) = false then
        ⟨fs, "Error: Cannot write file type " ++ ext⟩
      else
        let target :=
          if fsExists fs p && !(shouldOverwrite msg) then
            getUniqueFilename fs p
          else p
        ⟨fsWrite fs target content,
         "Successfully wrote to " ++ target⟩

/-- Outcome of `_handle_read`: the reply text and the file content that
was actually read from disk (`none` when no read happened). -/
structure ReadOutcome where
  reply : String
  readContent : Option String
deriving Repr

/-- `SUPPORTED_EXTENSIONS` (src/agents/file_reader.py:29). -/
def supportedExts : List String :=
  [".json", ".csv", ".txt", ".pdf", ".md", ".log"]

/-- `FileReaderAgent._handle_read` (src/agents/file_reader.py:100-141)
from the point where the path has been extracted: validate, check
existence and extension, read.  The LLM summarization of the content is
external; the reply models the `"Summary of ..."` shape. -/
def handleRead (canon : String → String) (baseDir p : String)
    (fs : FileSys) : ReadOutcome :=
  match validateFilePath canon baseDir p with
  | some err => ⟨err, none⟩
  | none =>
      if fsExists fs p = false then
        ⟨"Error: File not found at " ++ p, none⟩
      else
        let ext := pyLower (extOf p)
        if (supportedExts.contains ext) = false then
          ⟨"Error: Unsupported file type " ++ ext, none⟩
        else
          ⟨"Summary of " ++ baseNameOf p, fsGet fs p⟩

/-! ## Theorems -/

/-- Claim C2, counterexample: the claim says `success` is true iff the
status lies in 200–399, but `requests.Response.ok` (which the code copies
into `success`) is true for EVERY status outside 400–599; at status 100
the executor reports `success = true` although 100 is not in 200–399. -/
theorem executeApiCall_success_iff_2xx3xx_false :
    ¬ (((executeApiCall (.ok ⟨100, "", []⟩)).success = true) ↔
        (200 ≤ 100 ∧ 100 ≤ 399)) := by
  decide

/-- Claim C2 (amended): for every ExecutionResult built by
`_execute_api_call` from a completed HTTP response with status `s`,
`success` is true iff `s` is outside the error range 400–599 (hence in
particular for every `s` in 200–399). -/
theorem executeApiCall_success_iff (s : Nat) (b : String)
    (hs : List (String × String)) :
    ((executeApiCall (.ok ⟨s, b, hs⟩)).success = true) ↔
      (s < 400 ∨ 600 ≤ s) := by
  by_cases h : 400 ≤ s ∧ s < 600
  · simp only [executeApiCall, responseOk, if_pos h, Bool.false_eq_true,
      false_iff]
    omega
  · simp only [executeApiCall, responseOk, if_neg h, true_iff]
    omega

/-- Claim C8: when the `requests.request` call raises a network or
timeout failure, `_execute_api_call` returns an ExecutionResult with
`status_code = 0`, `success = false` and the exception text in `error`;
the `except Exception` branch makes the function total, so no exception
escapes to the caller. -/
theorem executeApiCall_transport_failure (e : String) :
    (executeApiCall (.error e)).status_code = 0 ∧
    (executeApiCall (.error e)).success = false ∧
    (executeApiCall (.error e)).error = some e ∧
    executeApiCall (.error e) = ⟨0, false, none, [], some e⟩ :=
  ⟨rfl, rfl, rfl, rfl⟩

/-- Claim C3: when every page fetch fails (start page unreachable) and no
OpenAPI stage applies, `_fetch_documentation`'s crawl stage returns the
EMPTY string, not a string starting with `"Error"`; consequently the
guard `docs_content.startswith("Error")` in `APICallerAgent.process`
does not fire and the agent proceeds to synthesis on an empty corpus,
contradicting the spec (the legacy single-page fetchers do return
`"Error fetching URL: ..."` strings, which is what the guard was written
for). -/
theorem fetchDocumentation_total_failure (url : String)
    (maxContentLength : Nat) :
    crawlDocsText maxContentLength (fun _ => none) url = "" ∧
    processSurfacesError (crawlDocsText maxContentLength (fun _ => none) url)
      = false := by
  have hcrawl : fetchDocsCrawl (fun _ => none) url = ⟨[], [url], [], [url]⟩ := rfl
  have hempty : crawlDocsText maxContentLength (fun _ => none) url = "" := by
    unfold crawlDocsText
    rw [hcrawl]
    simp [String.intercalate]
  refine ⟨hempty, ?_⟩
  rw [hempty]
  rfl

/-- Invariant of the crawl loop: the fetch log stays duplicate-free and
contained in the visited set, and grows by at most one URL per remaining
loop iteration. -/
theorem crawlLoop_inv (fetch : String → Option DocPage) :
    ∀ (fuel pageNum : Nat) (st : CrawlState),
      st.fetched.Nodup → (∀ u, u ∈ st.fetched → u ∈ st.visited) →
      ((crawlLoop fetch fuel pageNum st).fetched.Nodup ∧
       (crawlLoop fetch fuel pageNum st).fetched.length ≤
         st.fetched.length + fuel) := by
  intro fuel
  induction fuel with
  | zero =>
      intro pageNum st h1 _
      refine ⟨h1, ?_⟩
      show st.fetched.length ≤ st.fetched.length + 0
      omega
  | succ fuel ih =>
      intro pageNum st h1 h2
      rw [crawlLoop]
      match hq : st.queue with
      | [] =>
          dsimp only
          exact ⟨h1, by omega⟩
      | u :: rest =>
          dsimp only
          by_cases hv : u ∈ st.visited
          · simp only [if_pos hv]
            have hrec := ih (pageNum + 1) { st with queue := rest } h1 h2
            refine ⟨hrec.1, ?_⟩
            have hl := hrec.2
            dsimp only at hl
            omega
          · simp only [if_neg hv]
            have hu : u ∉ st.fetched := fun hmem => hv (h2 u hmem)
            have hnodup : (st.fetched ++ [u]).Nodup := by
              simp [List.nodup_append, h1, hu]
            have hsub : ∀ v, v ∈ st.fetched ++ [u] → v ∈ u :: st.visited := by
              intro v hvmem
              rcases List.mem_append.mp hvmem with h | h
              · exact List.mem_cons_of_mem _ (h2 v h)
              · simp at h
                simp [h]
            cases hf : fetch u with
            | none =>
                dsimp only
                have hrec := ih (pageNum + 1)
                  { queue := rest, visited := u :: st.visited,
                    content := st.content, fetched := st.fetched ++ [u] }
                  hnodup hsub
                refine ⟨hrec.1, ?_⟩
                have hl := hrec.2
                dsimp only at hl
                simp only [List.length_append, List.length_singleton] at hl
                omega
            | some page =>
                dsimp only
                have hrec := ih (pageNum + 1)
                  { queue := rest ++
                      (if pageNum = 0 then page.links.take 10 else []),
                    visited := u :: st.visited,
                    content := st.content ++ pageChunk u page,
                    fetched := st.fetched ++ [u] }
                  hnodup hsub
                refine ⟨hrec.1, ?_⟩
                have hl := hrec.2
                dsimp only at hl
                simp only [List.length_append, List.length_singleton] at hl
                omega

/-- Claim C7: a run of the crawl stage of `_fetch_documentation` invokes
`requests.get` on at most 11 URLs, and never on a URL that is already in
the visited set — the fetch log has no duplicates, whatever the link
structure (`fetch`) of the documentation site. -/
theorem crawl_budget_and_no_revisit (fetch : String → Option DocPage)
    (url : String) :
    (fetchDocsCrawl fetch url).fetched.length ≤ 11 ∧
    (fetchDocsCrawl fetch url).fetched.Nodup := by
  have h := crawlLoop_inv fetch 11 0 ⟨[url], [], [], []⟩ (by simp) (by simp)
  exact ⟨by simpa using h.2, h.1⟩

/-- Claim C1: in `APICallerAgent.process` (with `max_retries = 2`), when
the first synthesis yields a plan, a second attempt is entered iff the
first attempt's ExecutionResult has `success = false` and a status code
in 400–499; a result with a 5xx status or status 0 (transport failure)
never triggers a retry and the loop returns the first result unmodified;
and every loop exit through `_format_response` reports the unmodified
result of the last attempt together with `retry_count` equal to the
number of retries performed (attempts entered minus one). -/
theorem apiCaller_retry_gate (env : Nat → AttemptOutcome)
    (h0 : (env 0).synthOk = true) :
    ((apiCallerRetry env).attempts = [0, 1] ↔
      ((env 0).exec.success = false ∧ 400 ≤ (env 0).exec.status_code ∧
        (env 0).exec.status_code ≤ 499)) ∧
    ((500 ≤ (env 0).exec.status_code ∨ (env 0).exec.status_code = 0) →
      apiCallerRetry env = ⟨.finished (env 0).exec 0, [0]⟩) ∧
    (∀ r n, (apiCallerRetry env).outcome = .finished r n →
      r = (env n).exec ∧ n + 1 = (apiCallerRetry env).attempts.length) := by
  by_cases hs : (env 0).exec.success = true
  · have hres : apiCallerRetry env = ⟨.finished (env 0).exec 0, [0]⟩ := by
      simp [apiCallerRetry, attemptLoop, h0, hs]
    rw [hres]
    refine ⟨?_, fun _ => rfl, ?_⟩
    · simp [hs]
    · intro r n h
      injection h with he hn
      subst he; subst hn
      exact ⟨rfl, rfl⟩
  · have hsf : (env 0).exec.success = false := by simpa using hs
    by_cases hg : 400 ≤ (env 0).exec.status_code ∧
        (env 0).exec.status_code < 500
    · by_cases h1 : (env 1).synthOk = true
      · have hres : apiCallerRetry env = ⟨.finished (env 1).exec 1, [0, 1]⟩ := by
          by_cases hs1 : (env 1).exec.success = true
          · simp [apiCallerRetry, attemptLoop, h0, hs, hg.1, hg.2, h1, hs1]
          · simp [apiCallerRetry, attemptLoop, h0, hs, hg.1, hg.2, h1, hs1]
        rw [hres]
        refine ⟨⟨fun _ => ⟨hsf, hg.1, by omega⟩, fun _ => rfl⟩, ?_, ?_⟩
        · intro h5
          exfalso
          rcases h5 with h5 | h5 <;> omega
        · intro r n h
          injection h with he hn
          subst he; subst hn
          exact ⟨rfl, rfl⟩
      · have hres : apiCallerRetry env = ⟨.synthError 1, [0, 1]⟩ := by
          simp [apiCallerRetry, attemptLoop, h0, hs, hg.1, hg.2, h1]
        rw [hres]
        refine ⟨⟨fun _ => ⟨hsf, hg.1, by omega⟩, fun _ => rfl⟩, ?_, ?_⟩
        · intro h5
          exfalso
          rcases h5 with h5 | h5 <;> omega
        · intro r n h
          simp at h
    · have hres : apiCallerRetry env = ⟨.finished (env 0).exec 0, [0]⟩ := by
        simp [apiCallerRetry, attemptLoop, h0, hs]
        intro ha hb
        exact absurd ⟨ha, hb⟩ hg
      rw [hres]
      refine ⟨?_, fun _ => rfl, ?_⟩
      · constructor
        · intro hl
          exact absurd hl (by simp)
        · rintro ⟨-, hge, hle⟩
          exact absurd ⟨hge, by omega⟩ hg
      · intro r n h
        injection h with he hn
        subst he; subst hn
        exact ⟨rfl, rfl⟩

/-- Setting a key in a Python dict makes it retrievable: lookup after
`dictSet` finds the just-written value. -/
theorem dictGet_dictSet (k v : String) (hs : List (String × String)) :
    dictGet (dictSet k v hs) k = some v := by
  induction hs with
  | nil => simp [dictSet, dictGet]
  | cons hd tl ih =>
      by_cases h : hd.1 = k
      · simp [dictSet, dictGet, h]
      · simp only [dictSet, if_neg h]
        simpa [dictGet, List.find?, h] using ih

/-- Claim C5, counterexample: a plan whose headers already carry an
Authorization-style header (here `X-API-Key`, one of the very shapes the
claim lists) is NOT left alone — the code's guard tests only the literal
key `'Authorization'`, so it injects anyway and overwrites the existing
value. -/
theorem injectApiKey_authStyle_counterexample :
    specAuthStylePresent [("X-API-Key", "old")] = true ∧
    injectApiKey "Send your key in the X-API-Key header" (some "k")
        [("X-API-Key", "old")] = [("X-API-Key", "k")] ∧
    injectApiKey "Send your key in the X-API-Key header" (some "k")
        [("X-API-Key", "old")] ≠ [("X-API-Key", "old")] := by
  refine ⟨by decide, by decide, by decide⟩

/-- Claim C5 (amended): the injection guard is the literal header key
`'Authorization'`.  When that key is present the headers are unchanged;
when it is absent, an out-of-band key is injected with the shape chosen
by the case-insensitive corpus scan — "bearer" wins over "x-api-key",
which wins over "apikey"; both the "apikey" mention and the no-mention
default produce the `ApiKey` header. -/
theorem injectApiKey_literal_guard (key docs : String)
    (hs : List (String × String)) :
    (dictHasKey "Authorization" hs = true →
      injectApiKey docs (some key) hs = hs) ∧
    (dictHasKey "Authorization" hs = false →
      ((docsMention docs "bearer" = true →
         dictGet (injectApiKey docs (some key) hs) "Authorization" =
           some ("Bearer " ++ key)) ∧
       (docsMention docs "bearer" = false →
         docsMention docs "x-api-key" = true →
         dictGet (injectApiKey docs (some key) hs) "X-API-Key" = some key) ∧
       (docsMention docs "bearer" = false →
         docsMention docs "x-api-key" = false →
         dictGet (injectApiKey docs (some key) hs) "ApiKey" = some key))) := by
  constructor
  · intro hauth
    simp [injectApiKey, hauth]
  · intro hnoauth
    refine ⟨?_, ?_, ?_⟩
    · intro hb
      simp [injectApiKey, hnoauth, hb, dictGet_dictSet]
    · intro hb hx
      simp [injectApiKey, hnoauth, hb, hx, dictGet_dictSet]
    · intro hb hx
      by_cases ha : docsMention docs "apikey" = true
      · simp [injectApiKey, hnoauth, hb, hx, ha, dictGet_dictSet]
      · simp [injectApiKey, hnoauth, hb, hx, ha, dictGet_dictSet]

/-- Witness for C5's amended theorem: with no `Authorization` header and
a corpus mentioning "Bearer", the key is injected as
`Authorization: Bearer K`. -/
theorem injectApiKey_literal_guard_witness :
    dictHasKey "Authorization" [("Accept", "json")] = false ∧
    docsMention "Use a Bearer token" "bearer" = true ∧
    dictGet (injectApiKey "Use a Bearer token" (some "K") [("Accept", "json")])
        "Authorization" = some ("Bearer K") :=
  ⟨by decide, by decide,
   ((injectApiKey_literal_guard "K" "Use a Bearer token"
      [("Accept", "json")]).2 (by decide)).1 (by decide)⟩

/-- The first element surviving `dropWhile` does not satisfy the
predicate. -/
theorem dropWhile_head_false (p : Char → Bool) :
    ∀ (l t : List Char) (c : Char),
      List.dropWhile p l = c :: t → p c = false := by
  intro l
  induction l with
  | nil => intro t c h; simp [List.dropWhile] at h
  | cons a as ih =>
      intro t c h
      by_cases hp : p a = true
      · rw [List.dropWhile_cons_of_pos hp] at h
        exact ih t c h
      · rw [List.dropWhile_cons_of_neg hp] at h
        injection h with h1 _
        subst h1
        simpa using hp

/-- `lstrip` keeps a string whose first character is not whitespace. -/
theorem pyStripL_cons_not (c : Char) (l : List Char)
    (h : isPySpace c = false) : pyStripL (c :: l) = c :: l := by
  simp [pyStripL, List.dropWhile_cons, h]

/-- `rstrip` keeps a string whose last character is not whitespace. -/
theorem pyStripR_concat_not (l : List Char) (c : Char)
    (h : isPySpace c = false) : pyStripR (l ++ [c]) = l ++ [c] := by
  simp [pyStripR, List.reverse_append, List.dropWhile_cons, h]

/-- `rstrip` swallows a trailing whitespace character. -/
theorem pyStripR_concat_ws (l : List Char) (c : Char)
    (h : isPySpace c = true) : pyStripR (l ++ [c]) = pyStripR l := by
  simp [pyStripR, List.reverse_append, List.dropWhile_cons, h]

/-- `rstrip` is idempotent. -/
theorem pyStripR_idem (l : List Char) : pyStripR (pyStripR l) = pyStripR l := by
  simp [pyStripR, List.reverse_reverse, List.dropWhile_idempotent]

/-- `rstrip` does not disturb a non-whitespace head, so a further
`lstrip` is the identity. -/
theorem pyStripL_pyStripR_cons_not (c : Char) (t : List Char)
    (h : isPySpace c = false) :
    pyStripL (pyStripR (c :: t)) = pyStripR (c :: t) := by
  have hd : List.dropWhile isPySpace ((c :: t).reverse) =
      List.dropWhile isPySpace t.reverse ++ [c] := by
    rw [List.reverse_cons, List.dropWhile_append]
    split
    · next he =>
        have : List.dropWhile isPySpace t.reverse = [] := by
          simpa [List.isEmpty_iff] using he
        simp [this, List.dropWhile_cons, h]
    · rfl
  rw [pyStripR, hd, List.reverse_append]
  simp [pyStripL, List.dropWhile_cons, h]

/-- After the leading fence is stripped, the trailing `\n` plus fence is
removed and the final `strip()` leaves exactly the stripped payload. -/
theorem stripAfterLead (m : List Char) :
    pyStrip (stripTrailFence
      (List.dropWhile isPySpace (m ++ ['\n', '`', '`', '`']))) = pyStrip m := by
  rw [List.dropWhile_append]
  split
  · next he =>
      have hm : List.dropWhile isPySpace m = [] := by
        simpa [List.isEmpty_iff] using he
      have hlhs : pyStrip (stripTrailFence
          (List.dropWhile isPySpace (['\n', '`', '`', '`'] : List Char))) = [] := rfl
      rw [hlhs, pyStrip, pyStripL, hm]
      rfl
  · next he =>
      obtain ⟨c, t, hm⟩ : ∃ c t, List.dropWhile isPySpace m = c :: t := by
        cases hmm : List.dropWhile isPySpace m with
        | nil => rw [hmm] at he; simp at he
        | cons c t => exact ⟨c, t, rfl⟩
      have hc : isPySpace c = false := dropWhile_head_false _ m t c hm
      rw [hm]
      have htrail : stripTrailFence ((c :: t) ++ ['\n', '`', '`', '`']) =
          pyStripR ((c :: t) ++ ['\n']) := by
        have hpref : isPrefList "```".toList.reverse
            (((c :: t) ++ ['\n', '`', '`', '`']).reverse) = true := by
          simp [List.reverse_append, isPrefList]
        rw [stripTrailFence, if_pos hpref]
        have hlen : ((c :: t) ++ ['\n', '`', '`', '`']).length - 3 =
            (c :: t).length + 1 := by
          simp
        rw [hlen]
        congr 1
        have htk := @List.take_append _ (c :: t) ['\n', '`', '`', '`'] 1
        simpa using htk
      rw [htrail, pyStripR_concat_ws _ _ (by decide)]
      have hrhs : pyStrip m = pyStripR (c :: t) := by
        rw [pyStrip, pyStripL, hm]
      rw [hrhs, pyStrip, pyStripL_pyStripR_cons_not c t hc, pyStripR_idem]

/-- Stripping the leading ```` ```json ```` fence marker leaves the
whitespace-lstripped remainder. -/
theorem stripLead_json (x : List Char) :
    stripLeadFence ('`' :: '`' :: '`' :: 'j' :: 's' :: 'o' :: 'n' :: '\n' :: x)
      = List.dropWhile isPySpace x := rfl

/-- Stripping a leading bare ```` ``` ```` fence marker leaves the
whitespace-lstripped remainder. -/
theorem stripLead_plain (x : List Char) :
    stripLeadFence ('`' :: '`' :: '`' :: '\n' :: x)
      = List.dropWhile isPySpace x := rfl

/-- The full fence-stripping step applied to a ```` ```json ````-wrapped
payload returns exactly the `strip()`ped payload. -/
theorem stripFences_unwrap_json (j : String) :
    stripFences ("```json\n" ++ j ++ "\n```") = (pyStrip j.toList).asString := by
  have hw : ("```json\n" ++ j ++ "\n```").toList =
      '`' :: '`' :: '`' :: 'j' :: 's' :: 'o' :: 'n' :: '\n' ::
        (j.toList ++ ['\n', '`', '`', '`']) := rfl
  unfold stripFences
  rw [hw]
  have hsplit : ('`' :: '`' :: '`' :: 'j' :: 's' :: 'o' :: 'n' :: '\n' ::
      (j.toList ++ ['\n', '`', '`', '`'])) =
      ('`' :: '`' :: '`' :: 'j' :: 's' :: 'o' :: 'n' :: '\n' ::
        (j.toList ++ ['\n', '`', '`'])) ++ ['`'] := by
    simp
  have hstrip : pyStrip ('`' :: '`' :: '`' :: 'j' :: 's' :: 'o' :: 'n' :: '\n' ::
      (j.toList ++ ['\n', '`', '`', '`'])) =
      '`' :: '`' :: '`' :: 'j' :: 's' :: 'o' :: 'n' :: '\n' ::
        (j.toList ++ ['\n', '`', '`', '`']) := by
    rw [pyStrip, pyStripL_cons_not _ _ (by decide), hsplit,
      pyStripR_concat_not _ _ (by decide)]
  dsimp only
  rw [hstrip]
  have hc : isPrefList "```".toList
      ('`' :: '`' :: '`' :: 'j' :: 's' :: 'o' :: 'n' :: '\n' ::
        (j.toList ++ ['\n', '`', '`', '`'])) = true := rfl
  rw [if_pos hc, stripLead_json, stripAfterLead]

/-- The full fence-stripping step applied to a bare ```` ``` ````-wrapped
payload returns exactly the `strip()`ped payload. -/
theorem stripFences_unwrap_plain (j : String) :
    stripFences ("```\n" ++ j ++ "\n```") = (pyStrip j.toList).asString := by
  have hw : ("```\n" ++ j ++ "\n```").toList =
      '`' :: '`' :: '`' :: '\n' :: (j.toList ++ ['\n', '`', '`', '`']) := rfl
  unfold stripFences
  rw [hw]
  have hsplit : ('`' :: '`' :: '`' :: '\n' ::
      (j.toList ++ ['\n', '`', '`', '`'])) =
      ('`' :: '`' :: '`' :: '\n' :: (j.toList ++ ['\n', '`', '`'])) ++ ['`'] := by
    simp
  have hstrip : pyStrip ('`' :: '`' :: '`' :: '\n' ::
      (j.toList ++ ['\n', '`', '`', '`'])) =
      '`' :: '`' :: '`' :: '\n' :: (j.toList ++ ['\n', '`', '`', '`']) := by
    rw [pyStrip, pyStripL_cons_not _ _ (by decide), hsplit,
      pyStripR_concat_not _ _ (by decide)]
  dsimp only
  rw [hstrip]
  have hc : isPrefList "```".toList
      ('`' :: '`' :: '`' :: '\n' :: (j.toList ++ ['\n', '`', '`', '`'])) =
      true := rfl
  rw [if_pos hc, stripLead_plain, stripAfterLead]

/-- Claim C6: for every JSON text `j`, feeding the Synthesizer's
fence-stripping step the generator output wrapped as
```` ```json\n<j>\n``` ```` or ```` ```\n<j>\n``` ```` and then parsing
gives exactly the same value as parsing the unwrapped `j` directly.  The
parser is abstract; the hypothesis states the one fact true of
`json.loads` on a JSON text — that stripping surrounding whitespace from
`j` does not change its parse (JSON ignores surrounding whitespace, and a
valid JSON text can only be bordered by whitespace characters). -/
theorem fenced_json_parses_identically {α : Type} (parse : String → Option α)
    (j : String) (hp : parse ((pyStrip j.toList).asString) = parse j) :
    parse (stripFences ("```json\n" ++ j ++ "\n```")) = parse j ∧
    parse (stripFences ("```\n" ++ j ++ "\n```")) = parse j := by
  rw [stripFences_unwrap_json, stripFences_unwrap_plain]
  exact ⟨hp, hp⟩

/-- Witness for C6 at the concrete JSON text `[1, 2]` with the identity
parser (which is trivially strip-invariant on this text). -/
theorem fenced_json_parses_identically_witness :
    (fun s => some s) ((pyStrip "[1, 2]".toList).asString) =
      (fun s : String => some s) "[1, 2]" ∧
    ((fun s : String => some s) (stripFences ("```json\n" ++ "[1, 2]" ++ "\n```")) =
        (fun s : String => some s) "[1, 2]" ∧
      (fun s : String => some s) (stripFences ("```\n" ++ "[1, 2]" ++ "\n```")) =
        (fun s : String => some s) "[1, 2]") :=
  ⟨by decide,
   fenced_json_parses_identically (fun s => some s) "[1, 2]" (by decide)⟩

/-- Claim C9, counterexample: with two credentials sharing the keyword
"airtable" in the store, the subset lookup `"airtable"` does NOT return
the value stored under "Airtable personal access token" — the partial
match scans in insertion order and hits `airtable_base_id` first, so the
claim's universal guarantee fails even though the literal-key lookup
still returns the right value. -/
theorem credential_subset_lookup_counterexample :
    pyNormalize "Airtable personal access token" =
      "airtable_personal_access_token" ∧
    getCredential "Airtable personal access token" none
        [("airtable_base_id", "B"), ("airtable_personal_access_token", "A")]
      = some "A" ∧
    getCredential "airtable" none
        [("airtable_base_id", "B"), ("airtable_personal_access_token", "A")]
      = some "B" ∧
    getCredential "airtable" none
        [("airtable_base_id", "B"), ("airtable_personal_access_token", "A")]
      ≠ some "A" := by
  refine ⟨by decide, by decide, by decide, by decide⟩

/-- Claim C9 (amended): lookup by the credential's literal (normalized)
key — in any case variant — returns its value in EVERY store; keyword
subset and substring lookups are guaranteed to return the credential's
value when it is the only credential the strategies can match (e.g. in a
single-credential store); with several stored credentials sharing
keywords, a subset lookup returns the first match in insertion order,
which may belong to a different credential. -/
theorem credential_fuzzy_lookup (k v s : String) (creds : CredStore)
    (hv : v ≠ "") (hs : s ≠ "") :
    (pyNormalize s = k → dictGet creds k = some v →
      getCredential s none creds = some v) ∧
    (creds = [(k, v)] →
      (hasSubstr (pyNormalize s).toList k.toList = true ∨
       (1 < (splitOnChar '_' (pyNormalize s)).length ∧
        (splitOnChar '_' (pyNormalize s)).all
          (fun w => hasSubstr w.toList k.toList) = true) ∨
       hasSubstr k.toList (pyNormalize s).toList = true) →
      getCredential s none creds = some v) := by
  constructor
  · intro h1 h2
    rw [getCredential, if_neg hs]
    have hfm : fuzzyMatch s creds = some v := by
      rw [fuzzyMatch]
      dsimp only
      rw [h1, h2]
    rw [hfm]
    dsimp only
    rw [if_neg hv]
  · rintro rfl hmatch
    rw [getCredential, if_neg hs]
    have hfm : fuzzyMatch s [(k, v)] = some v := by
      rw [fuzzyMatch]
      dsimp only
      by_cases h1 : k = pyNormalize s
      · have hg : dictGet [(k, v)] (pyNormalize s) = some v := by
          simp [dictGet, List.find?, h1]
        rw [hg]
      · have hg : dictGet [(k, v)] (pyNormalize s) = none := by
          simp [dictGet, List.find?, h1]
        rw [hg]
        dsimp only
        by_cases h2 : hasSubstr (pyNormalize s).toList k.toList = true
        · rw [@List.find?_cons_of_pos _
            (fun q => hasSubstr (pyNormalize s).toList q.1.toList) (k, v) [] h2]
        · rw [@List.find?_cons_of_neg _
            (fun q => hasSubstr (pyNormalize s).toList q.1.toList) (k, v) [] h2,
            List.find?_nil]
          dsimp only
          by_cases h3 : 1 < (splitOnChar '_' (pyNormalize s)).length
          · rw [if_pos h3]
            by_cases h3b : (splitOnChar '_' (pyNormalize s)).all
                (fun w => hasSubstr w.toList k.toList) = true
            · rw [@List.find?_cons_of_pos _
                (fun q => (splitOnChar '_' (pyNormalize s)).all
                  (fun w => hasSubstr w.toList q.1.toList)) (k, v) [] h3b]
            · rw [@List.find?_cons_of_neg _
                (fun q => (splitOnChar '_' (pyNormalize s)).all
                  (fun w => hasSubstr w.toList q.1.toList)) (k, v) [] h3b,
                List.find?_nil]
              dsimp only
              by_cases h4 : hasSubstr k.toList (pyNormalize s).toList = true
              · rw [@List.find?_cons_of_pos _
                  (fun q => hasSubstr q.1.toList (pyNormalize s).toList)
                  (k, v) [] h4]
              · exfalso
                rcases hmatch with h | ⟨_, hb⟩ | h
                · exact h2 h
                · exact h3b hb
                · exact h4 h
          · rw [if_neg h3]
            dsimp only
            by_cases h4 : hasSubstr k.toList (pyNormalize s).toList = true
            · rw [@List.find?_cons_of_pos _
                (fun q => hasSubstr q.1.toList (pyNormalize s).toList)
                (k, v) [] h4]
            · exfalso
              rcases hmatch with h | ⟨ha, _⟩ | h
              · exact h2 h
              · exact h3 ha
              · exact h4 h
    rw [hfm]
    dsimp only
    rw [if_neg hv]

/-- Witness for C9's amended theorem: in a single-credential store the
keyword-subset lookup "AIRTABLE Token" (note the case) retrieves the
value stored under `airtable_personal_access_token`. -/
theorem credential_fuzzy_lookup_witness :
    ("A" : String) ≠ "" ∧ ("AIRTABLE Token" : String) ≠ "" ∧
    getCredential "AIRTABLE Token" none
        [("airtable_personal_access_token", "A")] = some "A" :=
  ⟨by decide, by decide,
   (credential_fuzzy_lookup "airtable_personal_access_token" "A"
      "AIRTABLE Token" [("airtable_personal_access_token", "A")]
      (by decide) (by decide)).2 rfl (by decide)⟩

/-- Witness for C1 at a concrete environment: first attempt fails with
422, the retried attempt succeeds — the retry is entered and the run
finishes with the second result and `retry_count = 1`. -/
theorem apiCaller_retry_gate_witness :
    (retryEnvW 0).synthOk = true ∧
    ((apiCallerRetry retryEnvW).attempts = [0, 1] ↔
      ((retryEnvW 0).exec.success = false ∧
        400 ≤ (retryEnvW 0).exec.status_code ∧
        (retryEnvW 0).exec.status_code ≤ 499)) ∧
    ((500 ≤ (retryEnvW 0).exec.status_code ∨
        (retryEnvW 0).exec.status_code = 0) →
      apiCallerRetry retryEnvW = ⟨.finished (retryEnvW 0).exec 0, [0]⟩) ∧
    (∀ r n, (apiCallerRetry retryEnvW).outcome = .finished r n →
      r = (retryEnvW n).exec ∧
      n + 1 = (apiCallerRetry retryEnvW).attempts.length) :=
  ⟨rfl, apiCaller_retry_gate retryEnvW rfl⟩

/-- Claim C4: a read or write request whose path canonicalizes (realpath:
`..` and symlink resolution, supplied by `canon`) to a location outside
the base directory — i.e. whose common component root with the canonical
base is not the base itself — is answered with the security-error text
and touches nothing: the write leaves the filesystem unchanged and the
read reads no file content. -/
theorem file_path_containment (canon : String → String)
    (baseDir msg content p : String) (fs : FileSys)
    (h : commonRoot (splitPath (canon p)) (splitPath (canon baseDir)) ≠
      splitPath (canon baseDir)) :
    (handleWrite canon baseDir msg content p fs).fs = fs ∧
    (handleWrite canon baseDir msg content p fs).reply =
      secErrorText (canon p) (canon baseDir) ∧
    (handleRead canon baseDir p fs).readContent = none ∧
    (handleRead canon baseDir p fs).reply =
      secErrorText (canon p) (canon baseDir) := by
  have hval : validateFilePath canon baseDir p =
      some (secErrorText (canon p) (canon baseDir)) := by
    rw [validateFilePath]
    rw [if_neg h]
  refine ⟨?_, ?_, ?_, ?_⟩ <;>
    simp only [handleWrite, handleRead, hval]

/-- Witness for C4: with the identity canonicalizer, base `/app` and the
request `/etc/passwd`, the operation is rejected and the (nonempty)
filesystem is untouched. -/
theorem file_path_containment_witness :
    commonRoot (splitPath (id "/etc/passwd")) (splitPath (id "/app")) ≠
      splitPath (id "/app") ∧
    ((handleWrite id "/app" "save secrets to /etc/passwd" "data"
        "/etc/passwd" [("/app/artefacts/a.txt", "keep")]).fs =
      [("/app/artefacts/a.txt", "keep")] ∧
    (handleWrite id "/app" "save secrets to /etc/passwd" "data"
        "/etc/passwd" [("/app/artefacts/a.txt", "keep")]).reply =
      secErrorText (id "/etc/passwd") (id "/app") ∧
    (handleRead id "/app" "/etc/passwd"
        [("/app/artefacts/a.txt", "keep")]).readContent = none ∧
    (handleRead id "/app" "/etc/passwd"
        [("/app/artefacts/a.txt", "keep")]).reply =
      secErrorText (id "/etc/passwd") (id "/app")) :=
  ⟨by decide,
   file_path_containment id "/app" "save secrets to /etc/passwd" "data"
     "/etc/passwd" [("/app/artefacts/a.txt", "keep")] (by decide)⟩

/-- `Nat.digitChar` is injective on decimal digits. -/
theorem digitChar_inj_lt10 :
    ∀ d < 10, ∀ e < 10, Nat.digitChar d = Nat.digitChar e → d = e := by
  decide

/-- Mapping `Nat.digitChar` over decimal digit lists is injective. -/
theorem map_digitChar_inj :
    ∀ (l1 l2 : List Nat), (∀ x ∈ l1, x < 10) → (∀ x ∈ l2, x < 10) →
      l1.map Nat.digitChar = l2.map Nat.digitChar → l1 = l2 := by
  intro l1
  induction l1 with
  | nil =>
      intro l2 _ _ h
      cases l2 with
      | nil => rfl
      | cons b bs => simp at h
  | cons a as ih =>
      intro l2 h1 h2 h
      cases l2 with
      | nil => simp at h
      | cons b bs =>
          simp only [List.map_cons, List.cons.injEq] at h
          have ha : a < 10 := h1 a (by simp)
          have hb : b < 10 := h2 b (by simp)
          have hab : a = b := digitChar_inj_lt10 a ha b hb h.1
          subst hab
          have htl := ih bs (fun x hx => h1 x (by simp [hx]))
            (fun x hx => h2 x (by simp [hx])) h.2
          rw [htl]

/-- `Nat.toDigitsCore` renders exactly the reversed decimal digits of a
positive number (given enough fuel). -/
theorem toDigitsCore_eq_digits :
    ∀ (fuel n : Nat) (ds : List Char), 0 < n → n < fuel →
      Nat.toDigitsCore 10 fuel n ds =
        ((Nat.digits 10 n).map Nat.digitChar).reverse ++ ds := by
  intro fuel
  induction fuel with
  | zero => intro n ds h1 h2; omega
  | succ fuel ih =>
      intro n ds hpos hlt
      rw [Nat.toDigitsCore]
      by_cases hdiv : n / 10 = 0
      · rw [if_pos hdiv]
        have hn10 : n < 10 := (Nat.div_eq_zero_iff (by norm_num)).mp hdiv
        rw [Nat.digits_def' (by norm_num : (1 : Nat) < 10) hpos, hdiv]
        simp
      · rw [if_neg hdiv]
        have hpos' : 0 < n / 10 := Nat.pos_of_ne_zero hdiv
        have hlt' : n / 10 < fuel := by
          have hself : n / 10 < n := Nat.div_lt_self hpos (by norm_num)
          omega
        rw [ih (n / 10) (Nat.digitChar (n % 10) :: ds) hpos' hlt']
        rw [Nat.digits_def' (by norm_num : (1 : Nat) < 10) hpos]
        simp [List.append_assoc]

/-- `Nat.toDigits` of a positive number is its reversed digit rendering. -/
theorem toDigits_eq (n : Nat) (h : 0 < n) :
    Nat.toDigits 10 n = ((Nat.digits 10 n).map Nat.digitChar).reverse := by
  rw [Nat.toDigits, toDigitsCore_eq_digits (n + 1) n [] h (by omega),
    List.append_nil]

/-- Only zero renders as the single character `0`. -/
theorem toDigits_pos_ne_zero_char (n : Nat) (hn : 0 < n) :
    Nat.toDigits 10 n ≠ ['0'] := by
  rw [toDigits_eq n hn]
  intro hcon
  have h1 : (Nat.digits 10 n).map Nat.digitChar = ['0'] := by
    have h2 := congrArg List.reverse hcon
    simpa using h2
  cases hdig : Nat.digits 10 n with
  | nil => rw [hdig] at h1; simp at h1
  | cons d ds =>
      rw [hdig] at h1
      simp only [List.map_cons, List.cons.injEq] at h1
      obtain ⟨hd0, hds⟩ := h1
      have hds' : ds = [] := by
        cases ds with
        | nil => rfl
        | cons x xs => simp at hds
      subst hds'
      have hd10 : d < 10 := Nat.digits_lt_base (by norm_num)
        (by rw [hdig]; simp)
      have hd : d = 0 := digitChar_inj_lt10 d hd10 0 (by norm_num)
        (by rw [hd0]; rfl)
      subst hd
      have hlast := @Nat.getLast_digit_ne_zero 10 n (by omega)
      simp [hdig] at hlast

/-- `Nat.repr` is injective: distinct numbers have distinct decimal
strings. -/
theorem natRepr_inj (m n : Nat) (h : Nat.repr m = Nat.repr n) : m = n := by
  have hd : Nat.toDigits 10 m = Nat.toDigits 10 n := by
    have hstr : (Nat.toDigits 10 m).asString = (Nat.toDigits 10 n).asString := h
    exact List.asString_inj.mp hstr
  rcases Nat.eq_zero_or_pos m with hm | hm
  · rcases Nat.eq_zero_or_pos n with hn | hn
    · omega
    · exfalso
      subst hm
      exact toDigits_pos_ne_zero_char n hn (by rw [← hd]; rfl)
  · rcases Nat.eq_zero_or_pos n with hn | hn
    · exfalso
      subst hn
      exact toDigits_pos_ne_zero_char m hm (by rw [hd]; rfl)
    · rw [toDigits_eq m hm, toDigits_eq n hn] at hd
      have h1 : (Nat.digits 10 m).map Nat.digitChar =
          (Nat.digits 10 n).map Nat.digitChar := List.reverse_injective hd
      have h2 : Nat.digits 10 m = Nat.digits 10 n :=
        map_digitChar_inj _ _
          (fun x hx => Nat.digits_lt_base (by norm_num) hx)
          (fun x hx => Nat.digits_lt_base (by norm_num) hx) h1
      have h3 := Nat.ofDigits_digits 10 m
      have h4 := Nat.ofDigits_digits 10 n
      rw [← h3, ← h4, h2]

/-- Candidate filenames `name_N.ext` are distinct for distinct counters. -/
theorem candidateName_inj (dir name ext : String) (c₁ c₂ : Nat)
    (h : candidateName dir name ext c₁ = candidateName dir name ext c₂) :
    c₁ = c₂ := by
  have hd := congrArg String.data h
  simp only [candidateName, String.data_append] at hd
  have h1 := List.append_cancel_right hd
  have h2 := List.append_cancel_left h1
  exact natRepr_inj _ _ (String.ext h2)

/-- When the counter search runs out of fuel, every candidate it tried
was an existing file. -/
theorem findFreeCounter_none_mem (fs : FileSys) (d n e : String) :
    ∀ (fuel start : Nat), findFreeCounter fs d n e fuel start = none →
      ∀ k, k < fuel → fsExists fs (candidateName d n e (start + k)) = true := by
  intro fuel
  induction fuel with
  | zero => intro start _ k hk; omega
  | succ fuel ih =>
      intro start h k hk
      rw [findFreeCounter] at h
      by_cases hex : fsExists fs (candidateName d n e start) = true
      · rw [if_pos hex] at h
        cases k with
        | zero => simpa using hex
        | succ k =>
            have hrec := ih (start + 1) h k (by omega)
            have harith : start + 1 + k = start + (k + 1) := by omega
            rw [harith] at hrec
            exact hrec
      · rw [if_neg hex] at h
        simp at h

/-- A path that `os.path.exists` reports is among the filesystem's keys. -/
theorem fsExists_mem (fs : FileSys) (p : String) (h : fsExists fs p = true) :
    p ∈ fs.map Prod.fst := by
  simp only [fsExists, List.any_eq_true] at h
  obtain ⟨en, he, hep⟩ := h
  have hp : en.1 = p := by simpa using hep
  exact List.mem_map.mpr ⟨en, he, hp⟩

/-- The counter search always succeeds with fuel `|fs| + 1`: there are
more candidate names than files, and candidates are pairwise distinct. -/
theorem findFreeCounter_total (fs : FileSys) (d n e : String) :
    ∃ c, findFreeCounter fs d n e (fs.length + 1) 1 = some c := by
  by_contra hcon
  push_neg at hcon
  have hnone : findFreeCounter fs d n e (fs.length + 1) 1 = none := by
    cases hfc : findFreeCounter fs d n e (fs.length + 1) 1 with
    | none => rfl
    | some c => exact absurd hfc (hcon c)
  have hall := findFreeCounter_none_mem fs d n e (fs.length + 1) 1 hnone
  have hnodup : ((List.range (fs.length + 1)).map
      (fun k => candidateName d n e (1 + k))).Nodup := by
    refine List.Nodup.map ?_ (List.nodup_range _)
    intro a b hab
    have := candidateName_inj d n e (1 + a) (1 + b) hab
    omega
  have hsub : ((List.range (fs.length + 1)).map
      (fun k => candidateName d n e (1 + k))) ⊆ fs.map Prod.fst := by
    intro x hx
    simp only [List.mem_map, List.mem_range] at hx
    obtain ⟨k, hk, rfl⟩ := hx
    exact fsExists_mem fs _ (hall k hk)
  have hle := (List.subperm_of_subset hnodup hsub).length_le
  simp only [List.length_map, List.length_range] at hle
  omega

/-- What a successful counter search guarantees: the found counter's
candidate is free, every smaller counter's candidate (from the start)
exists, and the result is at least the start. -/
theorem findFreeCounter_spec (fs : FileSys) (d n e : String) :
    ∀ (fuel start c : Nat), findFreeCounter fs d n e fuel start = some c →
      start ≤ c ∧ fsExists fs (candidateName d n e c) = false ∧
      ∀ m, start ≤ m → m < c → fsExists fs (candidateName d n e m) = true := by
  intro fuel
  induction fuel with
  | zero => intro start c h; simp [findFreeCounter] at h
  | succ fuel ih =>
      intro start c h
      rw [findFreeCounter] at h
      by_cases hex : fsExists fs (candidateName d n e start) = true
      · rw [if_pos hex] at h
        obtain ⟨h1, h2, h3⟩ := ih (start + 1) c h
        refine ⟨by omega, h2, ?_⟩
        intro m hm1 hm2
        rcases Nat.eq_or_lt_of_le hm1 with heq | hlt
        · rw [← heq]
          exact hex
        · exact h3 m (by omega) hm2
      · rw [if_neg hex] at h
        injection h with hc
        subst hc
        refine ⟨Nat.le_refl _, by simpa using hex, ?_⟩
        intro m hm1 hm2
        omega

/-- Writing one path leaves every other path's content unchanged. -/
theorem dictGet_dictSet_ne (q p content : String) (fs : FileSys)
    (h : q ≠ p) : dictGet (dictSet q content fs) p = dictGet fs p := by
  induction fs with
  | nil => simp [dictSet, dictGet, List.find?, h]
  | cons hd tl ih =>
      by_cases hh : hd.1 = q
      · simp only [dictSet, if_pos hh]
        simp only [dictGet, List.find?]
        have hqp : (decide (q = p)) = false := by simp [h]
        have hhp : (decide (hd.1 = p)) = false := by
          simp
          rw [hh]
          exact h
        rw [hqp, hhp]
      · simp only [dictSet, if_neg hh]
        simp only [dictGet, List.find?]
        cases hdp : decide (hd.1 = p) with
        | true => rfl
        | false => simpa [dictGet] using ih

/-- Claim C10: a write whose target path passes validation, has a
writable extension, already EXISTS on disk, and whose message contains no
overwrite keyword is diverted to the fresh filename `name_c.ext` with the
smallest counter `c ≥ 1` whose file does not exist; the new file receives
the content and the pre-existing file's content is untouched. -/
theorem write_no_overwrite_fresh_name (canon : String → String)
    (baseDir msg content p : String) (fs : FileSys)
    (hval : validateFilePath canon baseDir p = none)
    (hext : writableExts.contains (pyLower (extOf p)) = true)
    (hex : fsExists fs p = true)
    (hov : shouldOverwrite msg = false) :
    ∃ c : Nat,
      1 ≤ c ∧
      (handleWrite canon baseDir msg content p fs).fs =
        fsWrite fs (candidateName (dirNameOf p)
          (splitExtChars (baseNameOf p).toList).1.asString
          (splitExtChars (baseNameOf p).toList).2.asString c) content ∧
      fsExists fs (candidateName (dirNameOf p)
        (splitExtChars (baseNameOf p).toList).1.asString
        (splitExtChars (baseNameOf p).toList).2.asString c) = false ∧
      (∀ m, 1 ≤ m → m < c → fsExists fs (candidateName (dirNameOf p)
        (splitExtChars (baseNameOf p).toList).1.asString
        (splitExtChars (baseNameOf p).toList).2.asString m) = true) ∧
      candidateName (dirNameOf p)
        (splitExtChars (baseNameOf p).toList).1.asString
        (splitExtChars (baseNameOf p).toList).2.asString c ≠ p ∧
      fsGet (handleWrite canon baseDir msg content p fs).fs p = fsGet fs p ∧
      fsGet (handleWrite canon baseDir msg content p fs).fs
        (candidateName (dirNameOf p)
          (splitExtChars (baseNameOf p).toList).1.asString
          (splitExtChars (baseNameOf p).toList).2.asString c) =
        some content := by
  obtain ⟨c, hc⟩ := findFreeCounter_total fs (dirNameOf p)
    (splitExtChars (baseNameOf p).toList).1.asString
    (splitExtChars (baseNameOf p).toList).2.asString
  obtain ⟨hc1, hc2, hc3⟩ := findFreeCounter_spec fs (dirNameOf p)
    (splitExtChars (baseNameOf p).toList).1.asString
    (splitExtChars (baseNameOf p).toList).2.asString
    (fs.length + 1) 1 c hc
  have huniq : getUniqueFilename fs p = candidateName (dirNameOf p)
      (splitExtChars (baseNameOf p).toList).1.asString
      (splitExtChars (baseNameOf p).toList).2.asString c := by
    rw [getUniqueFilename, if_neg (by simp [hex])]
    dsimp only
    rw [hc]
  have hwr : (handleWrite canon baseDir msg content p fs).fs =
      fsWrite fs (candidateName (dirNameOf p)
        (splitExtChars (baseNameOf p).toList).1.asString
        (splitExtChars (baseNameOf p).toList).2.asString c) content := by
    rw [handleWrite, hval]
    rw [if_neg (show ¬ (writableExts.contains (pyLower (extOf p)) = false) by
      rw [hext]; decide)]
    rw [if_pos (show (fsExists fs p && !(shouldOverwrite msg)) = true by
      rw [hex, hov]; rfl)]
    rw [huniq]
  have hne : candidateName (dirNameOf p)
      (splitExtChars (baseNameOf p).toList).1.asString
      (splitExtChars (baseNameOf p).toList).2.asString c ≠ p := by
    intro hcon
    rw [hcon] at hc2
    rw [hex] at hc2
    cases hc2
  refine ⟨c, hc1, hwr, hc2, hc3, hne, ?_, ?_⟩
  · rw [hwr]
    exact dictGet_dictSet_ne _ _ _ fs hne
  · rw [hwr]
    exact dictGet_dictSet _ _ fs

/-- Witness for C10: writing to an existing `out.txt` without an
overwrite keyword lands in `out_1.txt` and keeps the old content. -/
theorem write_no_overwrite_fresh_name_witness :
    validateFilePath id "/app" "/app/artefacts/out.txt" = none ∧
    writableExts.contains (pyLower (extOf "/app/artefacts/out.txt")) = true ∧
    fsExists [("/app/artefacts/out.txt", "old")] "/app/artefacts/out.txt" =
      true ∧
    shouldOverwrite "save the new numbers to artefacts/out.txt" = false ∧
    ∃ c : Nat,
      1 ≤ c ∧
      (handleWrite id "/app" "save the new numbers to artefacts/out.txt"
        "new" "/app/artefacts/out.txt"
        [("/app/artefacts/out.txt", "old")]).fs =
        fsWrite [("/app/artefacts/out.txt", "old")]
          (candidateName (dirNameOf "/app/artefacts/out.txt")
            (splitExtChars (baseNameOf "/app/artefacts/out.txt").toList).1.asString
            (splitExtChars (baseNameOf "/app/artefacts/out.txt").toList).2.asString
            c) "new" ∧
      fsExists [("/app/artefacts/out.txt", "old")]
        (candidateName (dirNameOf "/app/artefacts/out.txt")
          (splitExtChars (baseNameOf "/app/artefacts/out.txt").toList).1.asString
          (splitExtChars (baseNameOf "/app/artefacts/out.txt").toList).2.asString
          c) = false ∧
      (∀ m, 1 ≤ m → m < c →
        fsExists [("/app/artefacts/out.txt", "old")]
          (candidateName (dirNameOf "/app/artefacts/out.txt")
            (splitExtChars (baseNameOf "/app/artefacts/out.txt").toList).1.asString
            (splitExtChars (baseNameOf "/app/artefacts/out.txt").toList).2.asString
            m) = true) ∧
      candidateName (dirNameOf "/app/artefacts/out.txt")
        (splitExtChars (baseNameOf "/app/artefacts/out.txt").toList).1.asString
        (splitExtChars (baseNameOf "/app/artefacts/out.txt").toList).2.asString
        c ≠ "/app/artefacts/out.txt" ∧
      fsGet (handleWrite id "/app"
          "save the new numbers to artefacts/out.txt" "new"
          "/app/artefacts/out.txt" [("/app/artefacts/out.txt", "old")]).fs
        "/app/artefacts/out.txt" =
        fsGet [("/app/artefacts/out.txt", "old")] "/app/artefacts/out.txt" ∧
      fsGet (handleWrite id "/app"
          "save the new numbers to artefacts/out.txt" "new"
          "/app/artefacts/out.txt" [("/app/artefacts/out.txt", "old")]).fs
        (candidateName (dirNameOf "/app/artefacts/out.txt")
          (splitExtChars (baseNameOf "/app/artefacts/out.txt").toList).1.asString
          (splitExtChars (baseNameOf "/app/artefacts/out.txt").toList).2.asString
          c) = some "new" :=
  ⟨by decide, by decide, by decide, by decide,
   write_no_overwrite_fresh_name id "/app"
     "save the new numbers to artefacts/out.txt" "new"
     "/app/artefacts/out.txt" [("/app/artefacts/out.txt", "old")]
     (by decide) (by decide) (by decide) (by decide)⟩

end LocalAgents
